import Mathlib

/-!
Shallow embedding of `src/rss_to_telegram.py` (an RSS-to-Telegram relay
script) and proofs about its selection, formatting, delivery and
persistence logic.

Modelling conventions:
* Python strings are sequences of code points, modelled as `List Char`.
* A feedparser entry attribute read with `getattr(e, name, default)` may be
  absent; such fields are modelled as `Option (List Char)`.  Python
  truthiness of these values (`None` and `""` are falsy) is `truthy` below.
* `time.mktime` results are only ever compared, so timestamps are
  modelled as integers.
* Network and file-system effects are inputs: the Telegram HTTP response
  is a value, message delivery is an oracle `sendOk : Nat → Bool` giving
  the outcome of the i-th POST, the state file is an `Option` of its text.
-/

namespace RssToTelegram

/-- Python strings modelled as lists of characters (code points). -/
abbrev Str := List Char

/-- Python truthiness of an optional string: `None` and `""` are falsy,
every other string is truthy. -/
def truthy : Option Str → Bool
  | none => false
  | some s => !s.isEmpty

/-- Model of a feedparser entry: every attribute the script reads.
`published_parsed` and `updated_parsed` stand for the parsed time
structs, reduced to their `time.mktime` value. -/
structure Entry where
  id : Option Str
  guid : Option Str
  link : Option Str
  title : Option Str
  published : Option Str
  summary : Option Str
  description : Option Str
  published_parsed : Option Int
  updated_parsed : Option Int
deriving DecidableEq, Repr, Inhabited

/-- Characters stripped by Python `str.strip()` (the ASCII whitespace
characters that can occur here). -/
def isPySpace (c : Char) : Bool :=
  c = ' ' || c = '\t' || c = '\n' || c = '\r' || c = '\x0b' || c = '\x0c'

/-- Python `s.lstrip()`. -/
def str_lstrip (s : Str) : Str := s.dropWhile isPySpace

/-- Python `s.rstrip()`. -/
def str_rstrip (s : Str) : Str := (s.reverse.dropWhile isPySpace).reverse

/-- Python `s.strip()`. -/
def str_strip (s : Str) : Str := str_rstrip (str_lstrip s)

/-- One pass of Python `s.replace("  ", " ")`: non-overlapping
left-to-right replacement of two spaces by one. -/
def replaceDouble : Str → Str
  | [] => []
  | [c] => [c]
  | c1 :: c2 :: rest =>
    if c1 = ' ' ∧ c2 = ' ' then ' ' :: replaceDouble rest
    else c1 :: replaceDouble (c2 :: rest)

/-- Python `"  " in s`: some adjacent pair of characters is two spaces. -/
def hasDouble : Str → Bool
  | c1 :: c2 :: rest => (c1 = ' ' && c2 = ' ') || hasDouble (c2 :: rest)
  | _ => false

/-- The loop `while "  " in s: s = s.replace("  ", " ")`, run with explicit
fuel.  Each iteration strictly shortens the string (see
`hasDouble_collapseSpaces`), so `s.length` steps always reach the loop's
exit condition. -/
def collapseSpacesFuel : Nat → Str → Str
  | 0, s => s
  | n + 1, s => if hasDouble s then collapseSpacesFuel n (replaceDouble s) else s

/-- The space-collapsing loop of `clean_text`, with enough fuel to reach
the fixed point. -/
def collapseSpaces (s : Str) : Str := collapseSpacesFuel s.length s

/-- Embedding of `clean_text`: `""` for a falsy argument, otherwise
replace newlines and carriage returns by spaces (the two sequential
`replace` calls act on disjoint single characters, so one traversal is
equivalent), collapse double spaces until none remain, and strip. -/
def clean_text (s : Str) : Str :=
  if s.isEmpty then []
  else
    str_strip (collapseSpaces (s.map fun c => if c = '\n' || c = '\r' then ' ' else c))

/-- Embedding of `pick_entry_id`: the Python `or`-chain returns the first
truthy operand among `id`, `guid`, `link`, and otherwise the composite
`title + "|" + published` (with `""` defaults), even if that is falsy. -/
def pick_entry_id (e : Entry) : Str :=
  if truthy e.id then e.id.getD []
  else if truthy e.guid then e.guid.getD []
  else if truthy e.link then e.link.getD []
  else e.title.getD [] ++ '|' :: e.published.getD []

/-- The raw summary chosen in `build_message`:
`getattr(entry, "summary", "") or getattr(entry, "description", "") or ""`. -/
def summary_raw (e : Entry) : Str :=
  if truthy e.summary then e.summary.getD []
  else if truthy e.description then e.description.getD []
  else []

/-- The summary part of `build_message` after normalisation and the
280-character truncation step. -/
def summary_segment (e : Entry) : Str :=
  let s := clean_text (summary_raw e)
  if 280 < s.length then str_rstrip (s.take 277) ++ ['.', '.', '.'] else s

/-- The `"📰 "` marker prefixed to the title line. -/
def newsMarker : Str := "📰 ".toList

/-- The `"Kaynak: "` label of the link line. -/
def kaynakLabel : Str := "Kaynak: ".toList

/-- Embedding of `build_message`: the non-empty parts in fixed order,
joined by blank lines, with the final `.strip()`. -/
def build_message (e : Entry) (source_title : Str) : Str :=
  let title := clean_text (e.title.getD [])
  let link := e.link.getD []
  let summary := summary_segment e
  let parts : List Str :=
    (if !title.isEmpty then [newsMarker ++ title] else [])
      ++ (if !summary.isEmpty then [summary] else [])
      ++ (if !link.isEmpty then [kaynakLabel ++ link] else [])
      ++ (if !source_title.isEmpty then [('(' :: (source_title ++ [')']))] else [])
  str_strip (List.intercalate ['\n', '\n'] parts)

/-- Embedding of `entry_sort_key`: the `mktime` value of
`published_parsed or updated_parsed` when one is present (a parsed time
struct is always truthy), else `0`. -/
def entry_sort_key (e : Entry) : Int :=
  match e.published_parsed with
  | some t => t
  | none =>
    match e.updated_parsed with
    | some t => t
    | none => 0

/-- The order realised by `entries.sort(key=entry_sort_key, reverse=True)`
on index-tagged entries: strictly larger key first, and among equal keys
the smaller original index first.  A stable descending sort is exactly a
sort by this lexicographic relation. -/
def sortKeyRel (a b : Nat × Entry) : Prop :=
  entry_sort_key b.2 < entry_sort_key a.2 ∨
    (entry_sort_key a.2 = entry_sort_key b.2 ∧ a.1 ≤ b.1)

instance sortKeyRel.decRel : DecidableRel sortKeyRel := fun a b => by
  unfold sortKeyRel; infer_instance

instance sortKeyRel.total : IsTotal (Nat × Entry) sortKeyRel := by
  constructor
  intro a b
  unfold sortKeyRel
  rcases lt_trichotomy (entry_sort_key a.2) (entry_sort_key b.2) with h | h | h
  · exact Or.inr (Or.inl h)
  · rcases Nat.le_total a.1 b.1 with h2 | h2
    · exact Or.inl (Or.inr ⟨h, h2⟩)
    · exact Or.inr (Or.inr ⟨h.symm, h2⟩)
  · exact Or.inl (Or.inl h)

instance sortKeyRel.trans : IsTrans (Nat × Entry) sortKeyRel := by
  constructor
  intro a b c hab hbc
  unfold sortKeyRel at *
  rcases hab with h1 | ⟨h1, h1i⟩ <;> rcases hbc with h2 | ⟨h2, h2i⟩
  · exact Or.inl (h2.trans h1)
  · exact Or.inl (h2 ▸ h1)
  · exact Or.inl (h1 ▸ h2)
  · exact Or.inr ⟨h1.trans h2, h1i.trans h2i⟩

/-- Embedding of `entries.sort(key=entry_sort_key, reverse=True)`:
Python's stable descending sort, realised as sorting the index-tagged
list by `sortKeyRel` and dropping the tags. -/
def pySortDescByKey (entries : List Entry) : List Entry :=
  (List.insertionSort sortKeyRel entries.enum).map Prod.snd

/-- Embedding of the selection loop of `main` (accumulator included):
walk the sorted entries, skip identifiers already seen, append survivors,
and stop as soon as the accumulated list reaches `max_items`. -/
def selectAux (seen : List Str) (max_items : Int) :
    List (Str × Entry) → List Entry → List (Str × Entry)
  | acc, [] => acc
  | acc, e :: rest =>
    let eid := pick_entry_id e
    if eid ∈ seen then selectAux seen max_items acc rest
    else
      let acc2 := acc ++ [(eid, e)]
      if max_items ≤ (acc2.length : Int) then acc2
      else selectAux seen max_items acc2 rest

/-- The `to_post` list of `main`: the selection loop run on the sorted
entries with an empty accumulator. -/
def to_post (entries : List Entry) (seen : List Str) (max_items : Int) :
    List (Str × Entry) :=
  selectAux seen max_items [] (pySortDescByKey entries)

/-- The Selector's final output: `to_post` after `to_post.reverse()`,
oldest first. -/
def selector_output (entries : List Entry) (seen : List Str) (max_items : Int) :
    List (Str × Entry) :=
  (to_post entries seen max_items).reverse

/-- Accumulator-free form of the selection loop, recursing on the number
of remaining slots; `selectAux_eq_selGo` relates it to `selectAux`. -/
def selGo (seen : List Str) : Int → List Entry → List (Str × Entry)
  | _, [] => []
  | fuel, e :: rest =>
    let eid := pick_entry_id e
    if eid ∈ seen then selGo seen fuel rest
    else if fuel ≤ 1 then [(eid, e)]
    else (eid, e) :: selGo seen (fuel - 1) rest

/-- Python `seen.add(eid)` on the in-memory set, with the set modelled as
a duplicate-free list in insertion order. -/
def addSeen (seen : List Str) (x : Str) : List Str :=
  if x ∈ seen then seen else seen ++ [x]

/-- Python `set(xs)` as a duplicate-free list. -/
def listToSet (l : List Str) : List Str := l.foldl addSeen []

/-- Embedding of the delivery loop of `main`.  The pairs are `to_post`
entries; `sendOk i` is the outcome of the i-th `telegram_send_message`
call; `i` counts calls made so far.  An entry whose built message is empty
is skipped without a call and without marking it seen; a successful call
marks the entry seen; a failed call raises, which aborts the loop carrying
the in-memory seen list and the index of the failed call. -/
def deliverLoop (sendOk : Nat → Bool) (source_title : Str) :
    List (Str × Entry) → List Str → Nat → Except (List Str × Nat) (List Str × Nat)
  | [], seen, i => .ok (seen, i)
  | (eid, e) :: rest, seen, i =>
    let msg := build_message e source_title
    if msg.isEmpty then deliverLoop sendOk source_title rest seen i
    else if sendOk i then deliverLoop sendOk source_title rest (addSeen seen eid) (i + 1)
    else .error (seen, i)

/-- Embedding of the persistence cap: `if len(seen_list) > 1000:
seen_list = seen_list[-1000:]`. -/
def cap_seen (l : List Str) : List Str :=
  if 1000 < l.length then l.drop (l.length - 1000) else l

/-- Observable end of a run: whether the process exits with status zero,
and the `seen_ids` list written to the state file (`none` when the file is
left untouched). -/
structure RunEnd where
  exitZero : Bool
  written : Option (List Str)
deriving DecidableEq, Repr

/-- The tail of `main` after the delivery loop: on normal completion the
capped seen list is written and the process exits zero; an uncaught
delivery error aborts the process with a non-zero status before
`save_state` is reached. -/
def finishRun : Except (List Str × Nat) (List Str × Nat) → RunEnd
  | .ok (seen, _) => ⟨true, some (cap_seen seen)⟩
  | .error _ => ⟨false, none⟩

/-- Model of the JSON object in the state file: the `seen_ids` key may be
absent. -/
structure StateJson where
  seen_ids : Option (List Str)
deriving DecidableEq, Repr

/-- The empty dict `{}` returned on load failure. -/
def emptyState : StateJson := ⟨none⟩

/-- Embedding of `load_state`.  The file system is the input: `none` for
a missing state file, `some text` for its contents; `parseJson` is
`json.loads`, whose exceptions (and any read error inside the `try`) are
caught and turned into the empty state.  The codomain records that the
function itself can never propagate an error. -/
def load_state (parseJson : Str → Except Unit StateJson) :
    Option Str → Except Unit StateJson
  | none => .ok emptyState
  | some text =>
    match parseJson text with
    | .ok st => .ok st
    | .error _ => .ok emptyState

/-- Model of the decoded Telegram response body: the `"ok"` key may be
absent (`data.get("ok")` is then `None`, which is falsy). -/
structure TgBody where
  ok : Option Bool
deriving DecidableEq, Repr

/-- Model of the HTTP response to the sendMessage POST: whether
`raise_for_status()` passes, and the result of `r.json()` (which raises
on an undecodable body). -/
structure HttpResponse where
  status_ok : Bool
  body : Except Unit TgBody
deriving Repr

/-- The distinct errors `telegram_send_message` can raise. -/
inductive SendError where
  | httpStatus
  | jsonDecode
  | apiNotOk
deriving DecidableEq, Repr

/-- Embedding of `telegram_send_message`, as a function of the HTTP
response: `raise_for_status()` first, then `r.json()`, then the
`data.get("ok")` truthiness check. -/
def telegram_send_message (r : HttpResponse) : Except SendError Unit :=
  if !r.status_ok then .error .httpStatus
  else
    match r.body with
    | .error _ => .error .jsonDecode
    | .ok data => if data.ok.getD false then .ok () else .error .apiNotOk

/-- The condition named by the spec's second failure clause: the body
decoded and its success flag is falsy. -/
def decodedFlagFalsy (r : HttpResponse) : Bool :=
  match r.body with
  | .ok data => !(data.ok.getD false)
  | .error _ => false

/-- Whether `telegram_send_message` raises (its Python exception paths). -/
def sendRaises (r : HttpResponse) : Bool :=
  match telegram_send_message r with
  | .ok _ => false
  | .error _ => true

/-- Whether `r.json()` succeeds on the response body. -/
def bodyDecodes (r : HttpResponse) : Bool :=
  match r.body with
  | .ok _ => true
  | .error _ => false

/-! Concrete data used to instantiate the theorems. -/

/-- An entry with no attributes at all. -/
def entEmpty : Entry := ⟨none, none, none, none, none, none, none, none, none⟩

/-- An entry with only a link. -/
def entLinked : Entry := ⟨none, none, some "L".toList, none, none, none, none, none, none⟩

/-- An entry with only a one-character title. -/
def entT (c : Char) : Entry := ⟨none, none, none, some [c], none, none, none, none, none⟩

/-- An entry whose summary is 281 characters of `x`. -/
def entBigSummary : Entry :=
  ⟨none, none, none, none, none, some (List.replicate 281 'x'), none, none, none⟩

/-- A delivery oracle whose first call succeeds and whose later calls fail. -/
def sendFailAt1 : Nat → Bool := fun i => decide (i = 0)

/-- A success-status HTTP response whose body does not decode as JSON. -/
def respUndecodable : HttpResponse := ⟨true, .error ()⟩

/-- An entry with an empty-string id and a non-empty guid. -/
def entGuid : Entry := ⟨some [], some ['g'], none, none, none, none, none, none, none⟩

/-- An entry with empty-string id and guid and a non-empty link. -/
def entLink2 : Entry := ⟨some [], some [], some ['l'], none, none, none, none, none, none⟩

/-- Entries with empty-string id, guid and link, equal title and
published strings, and a distinguishing summary. -/
def entColl (d : Char) : Entry :=
  ⟨some [], some [], some [], some ['t'], some ['p'], some [d], none, none, none⟩

/-! Supporting lemmas about the text helpers. -/

theorem replaceDouble_length_le (s : Str) :
    (replaceDouble s).length ≤ s.length := by
  induction s using replaceDouble.induct with
  | case1 => simp [replaceDouble]
  | case2 c => simp [replaceDouble]
  | case3 c1 c2 rest h ih => simp [replaceDouble, h]; omega
  | case4 c1 c2 rest h ih => simp [replaceDouble, h]; simpa using ih

theorem replaceDouble_length_lt (s : Str) (h : hasDouble s = true) :
    (replaceDouble s).length < s.length := by
  induction s using replaceDouble.induct with
  | case1 => simp [hasDouble] at h
  | case2 c => simp [hasDouble] at h
  | case3 c1 c2 rest hc ih =>
    have := replaceDouble_length_le rest
    simp [replaceDouble, hc]
    omega
  | case4 c1 c2 rest hc ih =>
    have hd : hasDouble (c2 :: rest) = true := by
      rcases rest with _ | ⟨c3, rest⟩
      · simp [hasDouble] at h
        rcases h with ⟨h1, h2⟩
        exact absurd ⟨h1, h2⟩ hc
      · simp [hasDouble] at h ⊢
        rcases h with h | h
        · exact absurd h hc
        · exact h
    have := ih hd
    simp [replaceDouble, hc]
    simpa using this

theorem hasDouble_collapseSpacesFuel :
    ∀ (n : Nat) (s : Str), s.length ≤ n →
      hasDouble (collapseSpacesFuel n s) = false := by
  intro n
  induction n with
  | zero =>
    intro s h
    have : s = [] := List.length_eq_zero.mp (Nat.le_zero.mp h)
    subst this
    simp [collapseSpacesFuel, hasDouble]
  | succ n ih =>
    intro s h
    by_cases hd : hasDouble s
    · have := replaceDouble_length_lt s hd
      simp only [collapseSpacesFuel, hd, if_true]
      exact ih _ (by omega)
    · simp only [collapseSpacesFuel, hd, if_false]
      exact Bool.not_eq_true _ ▸ eq_false_of_ne_true hd

/-- The fuel given to the space-collapsing loop reaches the loop's exit
condition: the result contains no double space, exactly as the Python
`while` loop guarantees. -/
theorem hasDouble_collapseSpaces (s : Str) :
    hasDouble (collapseSpaces s) = false :=
  hasDouble_collapseSpacesFuel s.length s le_rfl

theorem str_rstrip_length_le (s : Str) : (str_rstrip s).length ≤ s.length := by
  have := (List.dropWhile_sublist (l := s.reverse) isPySpace).length_le
  simpa [str_rstrip] using this

theorem getD_of_not_truthy (o : Option Str) (h : truthy o = false) :
    o.getD [] = [] := by
  cases o with
  | none => rfl
  | some s =>
    simp [truthy] at h
    simpa using h

theorem clean_text_nil : clean_text [] = [] := rfl

theorem str_strip_wrapped (src : Str) :
    str_strip ('(' :: (src ++ [')'])) = '(' :: (src ++ [')']) := by
  have h1 : str_lstrip ('(' :: (src ++ [')'])) = '(' :: (src ++ [')']) := by
    simp [str_lstrip, List.dropWhile_cons, isPySpace]
  have h2 : str_rstrip ('(' :: (src ++ [')'])) = '(' :: (src ++ [')']) := by
    simp [str_rstrip, List.dropWhile_cons, isPySpace]
  rw [str_strip, h1, h2]

/-! Supporting lemmas about the Selector. -/

theorem selectAux_eq_selGo (seen : List Str) (m : Int) :
    ∀ (l : List Entry) (acc : List (Str × Entry)),
      selectAux seen m acc l = acc ++ selGo seen (m - acc.length) l := by
  intro l
  induction l with
  | nil => intro acc; simp [selectAux, selGo]
  | cons e rest ih =>
    intro acc
    by_cases hs : pick_entry_id e ∈ seen
    · rw [show selectAux seen m acc (e :: rest) = selectAux seen m acc rest by
        simp [selectAux, hs]]
      rw [show selGo seen (m - acc.length) (e :: rest)
            = selGo seen (m - acc.length) rest by simp [selGo, hs]]
      exact ih acc
    · by_cases hm : m ≤ ((acc.length : Int) + 1)
      · have hm2 : m - (acc.length : Int) ≤ 1 := by omega
        rw [show selectAux seen m acc (e :: rest) = acc ++ [(pick_entry_id e, e)] by
          simp [selectAux, hs]; omega]
        rw [show selGo seen (m - acc.length) (e :: rest) = [(pick_entry_id e, e)] by
          simp [selGo, hs, hm2]]
      · have hm2 : ¬ (m - (acc.length : Int) ≤ 1) := by omega
        rw [show selectAux seen m acc (e :: rest)
              = selectAux seen m (acc ++ [(pick_entry_id e, e)]) rest by
            simp [selectAux, hs]; omega]
        rw [show selGo seen (m - acc.length) (e :: rest)
              = (pick_entry_id e, e) :: selGo seen (m - acc.length - 1) rest by
            simp [selGo, hs, hm2]]
        rw [ih (acc ++ [(pick_entry_id e, e)])]
        simp only [List.length_append, List.length_cons, List.length_nil]
        rw [show (m - ((acc.length + (0 + 1) : Nat) : Int)) = m - acc.length - 1 by
          push_cast; omega]
        simp

theorem to_post_eq_selGo (entries : List Entry) (seen : List Str) (m : Int) :
    to_post entries seen m = selGo seen m (pySortDescByKey entries) := by
  rw [to_post, selectAux_eq_selGo]
  simp

theorem selGo_mem (seen : List Str) :
    ∀ (f : Int) (l : List Entry) (p : Str × Entry), p ∈ selGo seen f l →
      p.1 = pick_entry_id p.2 ∧ p.1 ∉ seen := by
  intro f l
  induction l generalizing f with
  | nil => intro p hp; simp [selGo] at hp
  | cons e rest ih =>
    intro p hp
    by_cases hs : pick_entry_id e ∈ seen
    · rw [show selGo seen f (e :: rest) = selGo seen f rest by simp [selGo, hs]] at hp
      exact ih f p hp
    · by_cases hf : f ≤ 1
      · rw [show selGo seen f (e :: rest) = [(pick_entry_id e, e)] by
          simp [selGo, hs, hf]] at hp
        simp at hp
        subst hp
        exact ⟨rfl, hs⟩
      · rw [show selGo seen f (e :: rest)
              = (pick_entry_id e, e) :: selGo seen (f - 1) rest by
            simp [selGo, hs, hf]] at hp
        rcases List.mem_cons.mp hp with hp | hp
        · subst hp; exact ⟨rfl, hs⟩
        · exact ih (f - 1) p hp

theorem selGo_map_snd_sublist (seen : List Str) :
    ∀ (f : Int) (l : List Entry), List.Sublist ((selGo seen f l).map Prod.snd) l := by
  intro f l
  induction l generalizing f with
  | nil => simp [selGo]
  | cons e rest ih =>
    by_cases hs : pick_entry_id e ∈ seen
    · rw [show selGo seen f (e :: rest) = selGo seen f rest by simp [selGo, hs]]
      exact (ih f).trans (List.sublist_cons_self e rest)
    · by_cases hf : f ≤ 1
      · rw [show selGo seen f (e :: rest) = [(pick_entry_id e, e)] by
          simp [selGo, hs, hf]]
        simp only [List.map_cons, List.map_nil]
        exact List.Sublist.cons₂ e (List.nil_sublist rest)
      · rw [show selGo seen f (e :: rest)
              = (pick_entry_id e, e) :: selGo seen (f - 1) rest by
            simp [selGo, hs, hf]]
        simpa using List.Sublist.cons₂ e (ih (f - 1))

theorem selGo_length_le (seen : List Str) :
    ∀ (f : Int) (l : List Entry), 1 ≤ f →
      ((selGo seen f l).length : Int) ≤ f := by
  intro f l
  induction l generalizing f with
  | nil => intro hf; simp [selGo]; omega
  | cons e rest ih =>
    intro hf
    by_cases hs : pick_entry_id e ∈ seen
    · rw [show selGo seen f (e :: rest) = selGo seen f rest by simp [selGo, hs]]
      exact ih f hf
    · by_cases hf1 : f ≤ 1
      · rw [show selGo seen f (e :: rest) = [(pick_entry_id e, e)] by
          simp [selGo, hs, hf1]]
        simpa using hf
      · rw [show selGo seen f (e :: rest)
              = (pick_entry_id e, e) :: selGo seen (f - 1) rest by
            simp [selGo, hs, hf1]]
        have := ih (f - 1) (by omega)
        simp only [List.length_cons]
        push_cast
        omega

/-! Supporting lemmas about the sort. -/

theorem pySort_pairwise_desc (entries : List Entry) :
    List.Pairwise (fun a b : Nat × Entry => entry_sort_key b.2 ≤ entry_sort_key a.2)
      (List.insertionSort sortKeyRel entries.enum) := by
  refine (List.sorted_insertionSort sortKeyRel entries.enum).imp ?_
  intro a b hab
  rcases hab with h | ⟨h, _⟩
  · exact le_of_lt h
  · exact le_of_eq h.symm

theorem pySort_pairwise_stable (entries : List Entry) :
    List.Pairwise
      (fun a b : Nat × Entry => entry_sort_key a.2 = entry_sort_key b.2 → a.1 ≤ b.1)
      (List.insertionSort sortKeyRel entries.enum) := by
  refine (List.sorted_insertionSort sortKeyRel entries.enum).imp ?_
  intro a b hab heq
  rcases hab with h | ⟨_, h⟩
  · rw [heq] at h
    exact absurd h (lt_irrefl _)
  · exact h

theorem pySortDescByKey_pairwise (entries : List Entry) :
    List.Pairwise (fun d e => entry_sort_key e ≤ entry_sort_key d)
      (pySortDescByKey entries) := by
  rw [pySortDescByKey]
  exact List.pairwise_map.mpr (pySort_pairwise_desc entries)

/-! Supporting lemmas about delivery and persistence. -/

theorem addSeen_nodup {seen : List Str} (x : Str) (h : seen.Nodup) :
    (addSeen seen x).Nodup := by
  rw [addSeen]
  split
  · exact h
  · rename_i hx
    simp [List.nodup_append, h, hx]

theorem addSeen_of_not_mem {seen : List Str} {x : Str} (h : x ∉ seen) :
    addSeen seen x = seen ++ [x] := by
  simp [addSeen, h]

theorem foldl_addSeen_nodup :
    ∀ (l acc : List Str), acc.Nodup → (l.foldl addSeen acc).Nodup := by
  intro l
  induction l with
  | nil => intro acc h; simpa using h
  | cons x rest ih =>
    intro acc h
    simpa [List.foldl_cons] using ih (addSeen acc x) (addSeen_nodup x h)

theorem listToSet_nodup (l : List Str) : (listToSet l).Nodup :=
  foldl_addSeen_nodup l [] List.nodup_nil

theorem deliverLoop_ok_nodup (sendOk : Nat → Bool) (src : Str) :
    ∀ (batch : List (Str × Entry)) (seen : List Str) (i : Nat) (s : List Str) (j : Nat),
      deliverLoop sendOk src batch seen i = .ok (s, j) → seen.Nodup → s.Nodup := by
  intro batch
  induction batch with
  | nil =>
    intro seen i s j h hn
    simp [deliverLoop] at h
    rw [← h.1]
    exact hn
  | cons p rest ih =>
    intro seen i s j h hn
    obtain ⟨eid, e⟩ := p
    by_cases hm : (build_message e src).isEmpty
    · rw [show deliverLoop sendOk src ((eid, e) :: rest) seen i
            = deliverLoop sendOk src rest seen i by simp [deliverLoop, hm]] at h
      exact ih seen i s j h hn
    · by_cases hsend : sendOk i
      · rw [show deliverLoop sendOk src ((eid, e) :: rest) seen i
              = deliverLoop sendOk src rest (addSeen seen eid) (i + 1) by
            simp [deliverLoop, hm, hsend]] at h
        exact ih _ _ s j h (addSeen_nodup eid hn)
      · rw [show deliverLoop sendOk src ((eid, e) :: rest) seen i
              = .error (seen, i) by simp [deliverLoop, hm, hsend]] at h
        exact absurd h (by simp)

theorem cap_seen_length_le (l : List Str) : (cap_seen l).length ≤ 1000 := by
  rw [cap_seen]
  split
  · rename_i h
    simp only [List.length_drop]
    omega
  · rename_i h
    omega

theorem cap_seen_nodup {l : List Str} (h : l.Nodup) : (cap_seen l).Nodup := by
  rw [cap_seen]
  split
  · exact List.Nodup.sublist (List.drop_sublist _ _) h
  · exact h

theorem deliverLoop_fail_aux (sendOk : Nat → Bool) (src : Str) (p : Str × Entry)
    (post : List (Str × Entry)) (hp : build_message p.2 src ≠ []) :
    ∀ (pre : List (Str × Entry)) (seen : List Str) (i : Nat),
      (∀ q ∈ pre, build_message q.2 src ≠ []) →
      (∀ j, j < pre.length → sendOk (i + j) = true) →
      sendOk (i + pre.length) = false →
      (∀ q ∈ pre, q.1 ∉ seen) →
      (pre.map Prod.fst).Nodup →
      deliverLoop sendOk src (pre ++ p :: post) seen i
        = .error (seen ++ pre.map Prod.fst, i + pre.length) := by
  intro pre
  induction pre with
  | nil =>
    intro seen i _ _ hfail _ _
    obtain ⟨eid, e⟩ := p
    have hpe : ¬ (build_message e src).isEmpty := by
      simpa [List.isEmpty_iff] using hp
    have hfail2 : sendOk i = false := by simpa using hfail
    simp [deliverLoop, hpe, hfail2]
  | cons q pre ih =>
    intro seen i hmsg hok hfail hnotin hnd
    obtain ⟨qid, qe⟩ := q
    have hq : build_message qe src ≠ [] := hmsg (qid, qe) (List.mem_cons_self _ _)
    have hqe : ¬ (build_message qe src).isEmpty := by
      simpa [List.isEmpty_iff] using hq
    have hsend : sendOk i = true := by
      simpa using hok 0 (by simp)
    have hqnot : qid ∉ seen := hnotin (qid, qe) (List.mem_cons_self _ _)
    rw [show ((qid, qe) :: pre) ++ p :: post = (qid, qe) :: (pre ++ p :: post) by simp]
    rw [show deliverLoop sendOk src ((qid, qe) :: (pre ++ p :: post)) seen i
          = deliverLoop sendOk src (pre ++ p :: post) (addSeen seen qid) (i + 1) by
        simp [deliverLoop, hqe, hsend]]
    rw [addSeen_of_not_mem hqnot]
    have hnd2 : (pre.map Prod.fst).Nodup := by
      simpa using hnd.of_cons
    have hstep := ih (seen ++ [qid]) (i + 1)
      (fun r hr => hmsg r (List.mem_cons_of_mem _ hr))
      (fun j hj => by
        have := hok (j + 1) (by simpa using Nat.succ_lt_succ hj)
        simpa [Nat.add_assoc, Nat.add_comm 1 j] using this)
      (by
        have : i + 1 + pre.length = i + (pre.length + 1) := by omega
        rw [this]
        simpa using hfail)
      (fun r hr => by
        intro hmem
        rcases List.mem_append.mp hmem with hmem | hmem
        · exact hnotin r (List.mem_cons_of_mem _ hr) hmem
        · have hr1 : r.1 = qid := by simpa using hmem
          have hqid_tail : qid ∉ pre.map Prod.fst :=
            (List.nodup_cons.mp (by simpa using hnd)).1
          exact hqid_tail (List.mem_map.mpr ⟨r, hr, hr1⟩))
      hnd2
    rw [hstep]
    have harith : i + 1 + pre.length = i + (pre.length + 1) := by omega
    rw [harith]
    simp

/-! The claims. -/

/-- C1: for every entry sequence and every seen-set, an entry whose
`pick_entry_id` identifier is already in the seen-set at the start of
selection is never selected, regardless of timestamp or position: every
pair in the Selector's output carries the identifier of its entry and
that identifier is not in the seen-set. -/
theorem seen_entries_never_selected (entries : List Entry) (seen : List Str)
    (max_items : Int) :
    ∀ p ∈ selector_output entries seen max_items,
      p.1 = pick_entry_id p.2 ∧ p.1 ∉ seen := by
  intro p hp
  rw [selector_output, List.mem_reverse, to_post_eq_selGo] at hp
  exact selGo_mem seen max_items _ p hp

theorem seen_entries_never_selected_witness :
    (pick_entry_id (entT 'a'), entT 'a') ∈ selector_output [entT 'a'] ["x".toList] 5
    ∧ (pick_entry_id (entT 'a'), entT 'a').1 = pick_entry_id (pick_entry_id (entT 'a'), entT 'a').2
    ∧ (pick_entry_id (entT 'a'), entT 'a').1 ∉ ["x".toList] :=
  ⟨by decide,
   seen_entries_never_selected [entT 'a'] ["x".toList] 5
     (pick_entry_id (entT 'a'), entT 'a') (by decide)⟩

/-- C2 counterexample: with configured `MAX_ITEMS = 0` and one unseen
entry, the Selector returns one entry, not at most zero: the cap is only
checked after an entry has been appended. -/
theorem selector_max_items_zero_counterexample :
    ¬ (((selector_output [entLinked] [] 0).length : Int) ≤ 0) := by decide

/-- C2 amended: for every entry sequence, every seen-set, and every
configured `max_items ≥ 1` (any value obtainable from the default or a
positive `MAX_ITEMS`), the Selector returns at most `max_items` entries;
for `max_items ≤ 0` the post-append check still lets one entry through. -/
theorem selector_at_most_max_items (entries : List Entry) (seen : List Str)
    (max_items : Int) (hm : 1 ≤ max_items) :
    ((selector_output entries seen max_items).length : Int) ≤ max_items := by
  rw [selector_output, List.length_reverse, to_post_eq_selGo]
  exact selGo_length_le seen max_items _ hm

theorem selector_at_most_max_items_witness :
    (1 : Int) ≤ 2
    ∧ ((selector_output [entT 'a', entT 'b', entT 'c'] [] 2).length : Int) ≤ 2 :=
  ⟨by decide, selector_at_most_max_items [entT 'a', entT 'b', entT 'c'] [] 2 (by decide)⟩

/-- C3: the sorted candidate list is a permutation of the entries (with
their feed positions), ordered by non-increasing `entry_sort_key` and,
among equal keys, by increasing original feed position (the stable
descending sort); the Selector's output is the reverse of the selected
`to_post` list, the selected entries are a subsequence of the sorted
descending candidates, and the output is ordered oldest-first. -/
theorem selector_output_ordering (entries : List Entry) (seen : List Str)
    (max_items : Int) :
    List.Perm (List.insertionSort sortKeyRel entries.enum) entries.enum
    ∧ List.Pairwise (fun a b : Nat × Entry => entry_sort_key b.2 ≤ entry_sort_key a.2)
        (List.insertionSort sortKeyRel entries.enum)
    ∧ List.Pairwise (fun a b : Nat × Entry =>
        entry_sort_key a.2 = entry_sort_key b.2 → a.1 ≤ b.1)
        (List.insertionSort sortKeyRel entries.enum)
    ∧ selector_output entries seen max_items = (to_post entries seen max_items).reverse
    ∧ List.Sublist ((to_post entries seen max_items).map Prod.snd) (pySortDescByKey entries)
    ∧ List.Pairwise (fun p q : Str × Entry => entry_sort_key p.2 ≤ entry_sort_key q.2)
        (selector_output entries seen max_items) := by
  have hsub : List.Sublist ((to_post entries seen max_items).map Prod.snd)
      (pySortDescByKey entries) := by
    rw [to_post_eq_selGo]
    exact selGo_map_snd_sublist seen max_items _
  refine ⟨List.perm_insertionSort sortKeyRel entries.enum,
    pySort_pairwise_desc entries, pySort_pairwise_stable entries, rfl, hsub, ?_⟩
  have hps := pySortDescByKey_pairwise entries
  have hpost : List.Pairwise (fun p q : Str × Entry => entry_sort_key q.2 ≤ entry_sort_key p.2)
      (to_post entries seen max_items) :=
    List.pairwise_map.mp (List.Pairwise.sublist hsub hps)
  rw [selector_output]
  exact List.pairwise_reverse.mpr hpost

/-- C4: when delivery of the k-th selected entry fails (`pre` are the
k-1 earlier entries, `p` the failing one): the loop aborts at that call,
the process exits non-zero and the state file is never written, the
failed entry's identifier and all later entries' identifiers are absent
from the in-memory seen-set, and the identifiers of the entries delivered
earlier exist only in that in-memory set.  The hypotheses say the selected
entries all build non-empty messages, the first k-1 sends succeed and the
k-th fails, and the selected identifiers are distinct and not yet seen
(which `seen_entries_never_selected` guarantees for selected entries). -/
theorem delivery_failure_fail_fast (sendOk : Nat → Bool) (src : Str)
    (pre post : List (Str × Entry)) (p : Str × Entry) (seen0 : List Str)
    (hmsg : ∀ q ∈ pre ++ p :: post, build_message q.2 src ≠ [])
    (hok : ∀ j, j < pre.length → sendOk j = true)
    (hfail : sendOk pre.length = false)
    (hids : (seen0 ++ (pre ++ p :: post).map Prod.fst).Nodup) :
    deliverLoop sendOk src (pre ++ p :: post) seen0 0
      = .error (seen0 ++ pre.map Prod.fst, pre.length)
    ∧ (finishRun (deliverLoop sendOk src (pre ++ p :: post) seen0 0)).exitZero = false
    ∧ (finishRun (deliverLoop sendOk src (pre ++ p :: post) seen0 0)).written = none
    ∧ p.1 ∉ seen0 ++ pre.map Prod.fst
    ∧ ∀ q ∈ post, q.1 ∉ seen0 ++ pre.map Prod.fst := by
  rw [List.map_append, List.map_cons, List.nodup_append] at hids
  obtain ⟨hA, hBCD, hdisjA⟩ := hids
  rw [List.nodup_append] at hBCD
  obtain ⟨hB, hCD, hdisjB⟩ := hBCD
  rw [List.nodup_cons] at hCD
  obtain ⟨hcD, hD⟩ := hCD
  have hnotin : ∀ q ∈ pre, q.1 ∉ seen0 := by
    intro q hq hmem
    exact hdisjA hmem (List.mem_append_left _ (List.mem_map.mpr ⟨q, hq, rfl⟩))
  have hmain : deliverLoop sendOk src (pre ++ p :: post) seen0 0
      = .error (seen0 ++ pre.map Prod.fst, pre.length) := by
    have := deliverLoop_fail_aux sendOk src p post
      (hmsg p (List.mem_append_right _ (List.mem_cons_self _ _)))
      pre seen0 0
      (fun q hq => hmsg q (List.mem_append_left _ hq))
      (fun j hj => by simpa using hok j hj)
      (by simpa using hfail)
      hnotin hB
    simpa using this
  refine ⟨hmain, by rw [hmain]; rfl, by rw [hmain]; rfl, ?_, ?_⟩
  · intro hmem
    rcases List.mem_append.mp hmem with hmem | hmem
    · exact hdisjA hmem (List.mem_append_right _ (List.mem_cons_self _ _))
    · exact hdisjB hmem (List.mem_cons_self _ _)
  · intro q hq hmem
    have hqD : q.1 ∈ post.map Prod.fst := List.mem_map.mpr ⟨q, hq, rfl⟩
    rcases List.mem_append.mp hmem with hmem | hmem
    · exact hdisjA hmem (List.mem_append_right _ (List.mem_cons_of_mem _ hqD))
    · exact hdisjB hmem (List.mem_cons_of_mem _ hqD)

theorem delivery_failure_fail_fast_witness :
    deliverLoop sendFailAt1 []
        ([(['a'], entT 'a')] ++ (['b'], entT 'b') :: [(['c'], entT 'c')]) [] 0
      = .error ([] ++ [(['a'], entT 'a')].map Prod.fst, [(['a'], entT 'a')].length) :=
  (delivery_failure_fail_fast sendFailAt1 [] [(['a'], entT 'a')]
    [(['c'], entT 'c')] (['b'], entT 'b') []
    (by decide) (by decide) (by decide) (by decide)).1

/-- C5: any run that reaches the persistence step writes a `seen_ids`
list of at most 1000 identifiers with no duplicates (the in-memory seen
collection starts as `set(...)` of the loaded list and stays
duplicate-free under `seen.add`). -/
theorem persisted_seen_bounded (sendOk : Nat → Bool) (src : Str)
    (batch : List (Str × Entry)) (l0 : List Str) (w : List Str)
    (hw : (finishRun (deliverLoop sendOk src batch (listToSet l0) 0)).written = some w) :
    w.length ≤ 1000 ∧ w.Nodup := by
  cases h : deliverLoop sendOk src batch (listToSet l0) 0 with
  | error q =>
    rw [h] at hw
    simp [finishRun] at hw
  | ok q =>
    obtain ⟨s, j⟩ := q
    rw [h] at hw
    simp only [finishRun, Option.some.injEq] at hw
    have hn : s.Nodup :=
      deliverLoop_ok_nodup sendOk src batch _ 0 s j h (listToSet_nodup l0)
    rw [← hw]
    exact ⟨cap_seen_length_le s, cap_seen_nodup hn⟩

theorem persisted_seen_bounded_witness :
    (finishRun (deliverLoop (fun _ => true) [] [] (listToSet []) 0)).written
      = some ([] : List Str)
    ∧ ([] : List Str).length ≤ 1000 ∧ ([] : List Str).Nodup :=
  ⟨rfl, persisted_seen_bounded (fun _ => true) [] [] [] [] rfl⟩

/-- C6: when the normalized summary exceeds 280 characters, the Message
Builder replaces it by its first 277 characters with trailing whitespace
stripped and `"..."` appended; and the summary segment never exceeds 280
characters, ellipsis included. -/
theorem summary_segment_truncated (e : Entry) :
    (280 < (clean_text (summary_raw e)).length →
      summary_segment e
        = str_rstrip ((clean_text (summary_raw e)).take 277) ++ ['.', '.', '.'])
    ∧ (summary_segment e).length ≤ 280 := by
  have hbody : summary_segment e
      = if 280 < (clean_text (summary_raw e)).length
        then str_rstrip ((clean_text (summary_raw e)).take 277) ++ ['.', '.', '.']
        else clean_text (summary_raw e) := rfl
  constructor
  · intro h
    rw [hbody, if_pos h]
  · rw [hbody]
    by_cases h : 280 < (clean_text (summary_raw e)).length
    · rw [if_pos h]
      have h1 := str_rstrip_length_le ((clean_text (summary_raw e)).take 277)
      have h2 := List.length_take_le 277 (clean_text (summary_raw e))
      simp only [List.length_append, List.length_cons, List.length_nil]
      omega
    · rw [if_neg h]
      omega

set_option maxRecDepth 40000 in
theorem summary_segment_truncated_witness :
    summary_segment entBigSummary
      = str_rstrip ((clean_text (summary_raw entBigSummary)).take 277) ++ ['.', '.', '.']
    ∧ (summary_segment entBigSummary).length ≤ 280 :=
  ⟨(summary_segment_truncated entBigSummary).1 (by decide),
   (summary_segment_truncated entBigSummary).2⟩

/-- C7: for an entry with no title, no summary or description, and no
link, the Message Builder returns exactly the parenthesized source-title
line when the source title is non-empty, and the empty string when it is
empty too; the delivery loop then skips such an entry entirely: no send
happens and its identifier is not added to the seen-set. -/
theorem empty_message_entry_skipped (e : Entry) (src : Str)
    (ht : truthy e.title = false) (hs : truthy e.summary = false)
    (hd : truthy e.description = false) (hl : truthy e.link = false) :
    (src ≠ [] → build_message e src = '(' :: (src ++ [')']))
    ∧ build_message e [] = []
    ∧ ∀ (sendOk : Nat → Bool) (eid : Str) (rest : List (Str × Entry))
        (seen : List Str) (i : Nat),
        deliverLoop sendOk [] ((eid, e) :: rest) seen i
          = deliverLoop sendOk [] rest seen i := by
  have htitle : clean_text (e.title.getD []) = [] := by
    rw [getD_of_not_truthy _ ht]
    exact clean_text_nil
  have hsum : clean_text (summary_raw e) = [] := by
    rw [show summary_raw e = [] by simp [summary_raw, hs, hd]]
    exact clean_text_nil
  have hseg : summary_segment e = [] := by
    rw [show summary_segment e
        = if 280 < (clean_text (summary_raw e)).length
          then str_rstrip ((clean_text (summary_raw e)).take 277) ++ ['.', '.', '.']
          else clean_text (summary_raw e) from rfl]
    rw [hsum]
    simp
  have hlink : e.link.getD [] = [] := getD_of_not_truthy _ hl
  have hbm : ∀ s : Str, build_message e s
      = str_strip (List.intercalate ['\n', '\n']
          (if !s.isEmpty then [('(' :: (s ++ [')']))] else [])) := by
    intro s
    rw [build_message]
    rw [htitle, hseg, hlink]
    simp
  have hempty : build_message e [] = [] := by
    rw [hbm []]
    simp [List.intercalate]
    rfl
  refine ⟨?_, hempty, ?_⟩
  · intro hsrc
    have hne : src.isEmpty = false := by
      simpa [List.isEmpty_iff] using hsrc
    rw [hbm src, hne]
    rw [show List.intercalate ['\n', '\n']
          (if (!false) = true then [('(' :: (src ++ [')']))] else [])
          = '(' :: (src ++ [')']) by simp [List.intercalate]]
    exact str_strip_wrapped src
  · intro sendOk eid rest seen i
    have : (build_message e []).isEmpty := by rw [hempty]; rfl
    simp [deliverLoop, this]

theorem empty_message_entry_skipped_witness :
    build_message entEmpty "S".toList = '(' :: ("S".toList ++ [')'])
    ∧ build_message entEmpty [] = []
    ∧ deliverLoop (fun _ => true) [] [(['i'], entEmpty)] [] 0
        = deliverLoop (fun _ => true) [] [] [] 0 :=
  ⟨(empty_message_entry_skipped entEmpty "S".toList rfl rfl rfl rfl).1 (by decide),
   (empty_message_entry_skipped entEmpty [] rfl rfl rfl rfl).2.1,
   (empty_message_entry_skipped entEmpty [] rfl rfl rfl rfl).2.2
     (fun _ => true) ['i'] [] [] 0⟩

/-- C8: `load_state` never propagates an error to its caller, and both a
missing state file and file contents that fail to parse yield the empty
state. -/
theorem load_state_fail_soft (parseJson : Str → Except Unit StateJson)
    (file : Option Str) :
    (∃ st, load_state parseJson file = .ok st)
    ∧ (file = none → load_state parseJson file = .ok emptyState)
    ∧ (∀ t, file = some t → parseJson t = .error () →
        load_state parseJson file = .ok emptyState) := by
  refine ⟨?_, ?_, ?_⟩
  · cases file with
    | none => exact ⟨emptyState, rfl⟩
    | some t =>
      cases h : parseJson t with
      | ok st => exact ⟨st, by simp [load_state, h]⟩
      | error u => exact ⟨emptyState, by simp [load_state, h]⟩
  · intro h
    subst h
    rfl
  · intro t h hparse
    subst h
    simp [load_state, hparse]

theorem load_state_fail_soft_witness :
    load_state (fun _ => .error ()) none = .ok emptyState
    ∧ load_state (fun _ => .error ()) (some ['x']) = .ok emptyState :=
  ⟨(load_state_fail_soft (fun _ => .error ()) none).2.1 rfl,
   (load_state_fail_soft (fun _ => .error ()) (some ['x'])).2.2 ['x'] rfl rfl⟩

/-- C9 counterexample: a success-status HTTP response whose body fails to
decode makes `telegram_send_message` raise (from `r.json()`), although
neither of the claim's two conditions — non-success HTTP result, or a
decoded body with a falsy success flag — holds, so the claimed "if and
only if" fails at this input. -/
theorem tg_send_iff_counterexample :
    ¬ ((sendRaises respUndecodable = true)
        ↔ (respUndecodable.status_ok = false
            ∨ decodedFlagFalsy respUndecodable = true)) := by
  decide

/-- C9 amended: `telegram_send_message` raises if and only if the HTTP
result is non-success, or the response body fails to decode, or the
decoded body's success flag is falsy; on a success HTTP result whose body
decodes with a truthy success flag it returns normally. -/
theorem tg_send_error_conditions (r : HttpResponse) :
    (sendRaises r = true ↔
      (r.status_ok = false ∨ bodyDecodes r = false ∨ decodedFlagFalsy r = true))
    ∧ (sendRaises r = false ↔ telegram_send_message r = .ok ()) := by
  obtain ⟨st, body⟩ := r
  cases st
  · simp [sendRaises, telegram_send_message, decodedFlagFalsy, bodyDecodes]
  · cases body with
    | error u =>
      simp [sendRaises, telegram_send_message, decodedFlagFalsy, bodyDecodes]
    | ok data =>
      by_cases hok : data.ok.getD false
      · simp [sendRaises, telegram_send_message, decodedFlagFalsy, bodyDecodes, hok]
      · simp [sendRaises, telegram_send_message, decodedFlagFalsy, bodyDecodes, hok]

/-- C10: `pick_entry_id` treats empty-string fields as absent: an empty
id falls through to guid, then to link, then to the composite of title,
`"|"` and published; consequently two entries with no truthy id, guid or
link that agree on title and published get the same identifier. -/
theorem pick_entry_id_empty_fallthrough
    (eg el ec e1 e2 : Entry)
    (hg1 : truthy eg.id = false) (hg2 : truthy eg.guid = true)
    (hl1 : truthy el.id = false) (hl2 : truthy el.guid = false)
    (hl3 : truthy el.link = true)
    (hc1 : truthy ec.id = false) (hc2 : truthy ec.guid = false)
    (hc3 : truthy ec.link = false)
    (h11 : truthy e1.id = false) (h12 : truthy e1.guid = false)
    (h13 : truthy e1.link = false)
    (h21 : truthy e2.id = false) (h22 : truthy e2.guid = false)
    (h23 : truthy e2.link = false)
    (ht : e1.title.getD [] = e2.title.getD [])
    (hp : e1.published.getD [] = e2.published.getD []) :
    pick_entry_id eg = eg.guid.getD []
    ∧ pick_entry_id el = el.link.getD []
    ∧ pick_entry_id ec = ec.title.getD [] ++ '|' :: ec.published.getD []
    ∧ pick_entry_id e1 = pick_entry_id e2 := by
  refine ⟨?_, ?_, ?_, ?_⟩
  · simp [pick_entry_id, hg1, hg2]
  · simp [pick_entry_id, hl1, hl2, hl3]
  · simp [pick_entry_id, hc1, hc2, hc3]
  · simp [pick_entry_id, h11, h12, h13, h21, h22, h23, ht, hp]

theorem pick_entry_id_empty_fallthrough_witness :
    entColl 'x' ≠ entColl 'y'
    ∧ pick_entry_id entGuid = entGuid.guid.getD []
    ∧ pick_entry_id (entColl 'x') = pick_entry_id (entColl 'y') := by
  have h := pick_entry_id_empty_fallthrough entGuid entLink2 (entColl 'x')
    (entColl 'x') (entColl 'y') rfl rfl rfl rfl rfl rfl rfl rfl rfl rfl rfl
    rfl rfl rfl rfl rfl
  exact ⟨by decide, h.1, h.2.2.2⟩

end RssToTelegram
